import Mathlib

/-!
Verification of the request/response translator of
cfn-custom-resource-responder.  The entire decision logic of the
repository lives in the API Gateway mapping template (the
`vtl_template` string, src/cfn_custom_resource_responder.py lines
42-81).  This file gives a shallow embedding of that template and of
the library functions it calls, and proves the frozen claims about it.

Embedding conventions:
  * JSON values are the inductive `Json`; objects are ordered
    association lists, matching the order-preserving maps used by the
    gateway runtime.
  * Strings are treated at the `List Char` level for the splitting and
    decoding functions; percent escapes `%XY` are decoded to the single
    character of code `16*X+Y` (a byte-level view, exact for the ASCII
    data these URLs carry).
  * `splitN sep n cs` models Java `String.split(sep, n+1)` with a
    positive limit (at most `n` splits, remainder kept verbatim,
    trailing empty segments kept); `splitFullL` models limit 0
    (full split, trailing empty segments removed, and a separator-free
    input returned whole).
  * `decodeList` models `$util.urlDecode`, which decodes
    application/x-www-form-urlencoded data (Java `URLDecoder.decode`):
    `+` becomes a space, `%XY` is decoded, malformed escapes make the
    template evaluation fail (`none`).
  * `escapeJavaScript` models `$util.escapeJavaScript` (Commons Lang
    `escapeJavaStyleString` with single quotes and forward slashes
    escaped, control and non-ASCII characters as `\uXXXX` with
    uppercase hex); `fixQuotes` models `.replaceAll("\\'", "'")`,
    the leftmost, non-overlapping replacement of the two-character
    sequence backslash-quote by a quote.
  * `$input.json(path)` is modelled by `inputJsonField` /
    `jsonPathField`: a found path splices the JSON value verbatim, a
    missing path renders as an empty splice (`JField.absent`), not as
    a template failure.
  * A template evaluation error (out-of-bounds index after a split,
    malformed percent escape) rejects the whole translation: `none`.
-/

namespace CfnResponder

/-- JSON values; object fields keep their original order. -/
inductive Json where
  | null : Json
  | bool : Bool → Json
  | num : Int → Json
  | str : String → Json
  | arr : List Json → Json
  | obj : List (String × Json) → Json

/-- Value of one field of the emitted callback body.  `raw s` is text
written directly between double quotes by the template (Status, Reason,
flattened keys); `json j` is a JSON value spliced by `$input.json`;
`absent` is the empty splice produced by `$input.json` on a missing
path. -/
inductive JField where
  | raw : String → JField
  | json : Json → JField
  | absent : JField

/-- The `detail` object of the incoming invocation-result event, with
the three sub-objects the template reads. -/
structure EventDetail where
  requestPayload : List (String × Json)
  responseContext : List (String × Json)
  responsePayload : List (String × Json)

/-- The outbound PUT request assembled by the template: decoded path
override, decoded query-string overrides, and the body fields in
emission order. -/
structure OutboundRequest where
  path : String
  query : List (String × String)
  body : List (String × JField)

/-- First value stored under key `k` in an ordered JSON object. -/
def assocLookup (m : List (String × Json)) (k : String) : Option Json :=
  (m.find? (fun kv => kv.1 == k)).map (fun kv => kv.2)

/-- Key-presence test, as VTL `containsKey`. -/
def containsKey (m : List (String × Json)) (k : String) : Bool :=
  (assocLookup m k).isSome

/-- Lookup that insists on a JSON string value. -/
def lookupStr (m : List (String × Json)) (k : String) : Option String :=
  match assocLookup m k with
  | some (Json.str s) => some s
  | _ => none

/-- Java `String.split` with positive limit `n + 1`: split on `sep` at
most `n` times, keep the remainder (separators included) as the last
segment, keep trailing empty segments. -/
def splitN (sep : Char) : Nat → List Char → List (List Char)
  | _, [] => [[]]
  | 0, cs => [cs]
  | n + 1, c :: cs =>
    if c = sep then [] :: splitN sep n cs
    else
      match splitN sep (n + 1) cs with
      | [] => [[c]]
      | h :: t => (c :: h) :: t

/-- Unbounded split on `sep`, keeping every segment. -/
def splitAllL (sep : Char) : List Char → List (List Char)
  | [] => [[]]
  | c :: cs =>
    if c = sep then [] :: splitAllL sep cs
    else
      match splitAllL sep cs with
      | [] => [[c]]
      | h :: t => (c :: h) :: t

/-- Remove trailing empty segments, as Java split with limit 0 does. -/
def dropTrailingEmpties (ls : List (List Char)) : List (List Char) :=
  (ls.reverse.dropWhile (fun l => l.isEmpty)).reverse

/-- Java `String.split(sep)` (limit 0): no occurrence of the separator
returns the whole input as a single segment; otherwise split fully and
remove trailing empty segments. -/
def splitFullL (sep : Char) (cs : List Char) : List (List Char) :=
  if sep ∈ cs then dropTrailingEmpties (splitAllL sep cs) else [cs]

/-- Hexadecimal digit value, upper or lower case, as Java parses the
two digits of a percent escape. -/
def hexVal (c : Char) : Option Nat :=
  if 48 ≤ c.toNat ∧ c.toNat ≤ 57 then some (c.toNat - 48)
  else if 97 ≤ c.toNat ∧ c.toNat ≤ 102 then some (c.toNat - 87)
  else if 65 ≤ c.toNat ∧ c.toNat ≤ 70 then some (c.toNat - 55)
  else none

/-- Uppercase hexadecimal digit character for a value below 16. -/
def uhex (n : Nat) : Char :=
  if n < 10 then Char.ofNat (48 + n) else Char.ofNat (55 + n)

/-- Application/x-www-form-urlencoded decoding, as `$util.urlDecode`
(Java `URLDecoder.decode`): `+` decodes to a space, `%XY` decodes to
the character of code `16*X+Y`, a malformed escape fails, everything
else is copied. -/
def decodeList : List Char → Option (List Char)
  | [] => some []
  | c :: cs =>
    if c = '+' then (decodeList cs).map (fun ds => ' ' :: ds)
    else if c = '%' then
      match cs with
      | a :: b :: cs2 =>
        match hexVal a, hexVal b with
        | some x, some y => (decodeList cs2).map (fun ds => Char.ofNat (16 * x + y) :: ds)
        | _, _ => none
      | _ => none
    else (decodeList cs).map (fun ds => c :: ds)

/-- String-level wrapper around `decodeList`. -/
def urlDecode (s : String) : Option String :=
  (decodeList s.data).map String.mk

/-- Four-character uppercase hexadecimal rendering used by the
`\uXXXX` escapes of `escapeJavaScript`. -/
def hex4 (n : Nat) : List Char :=
  [uhex (n / 4096 % 16), uhex (n / 256 % 16), uhex (n / 16 % 16), uhex (n % 16)]

/-- Escape of one character under `$util.escapeJavaScript` (Commons
Lang JavaScript string rules: single quotes and forward slashes also
escaped, control and non-ASCII characters as `\uXXXX`). -/
def escJSChar (c : Char) : List Char :=
  if c.toNat > 127 then '\\' :: 'u' :: hex4 c.toNat
  else if c.toNat < 32 then
    if c.toNat = 8 then ['\\', 'b']
    else if c.toNat = 10 then ['\\', 'n']
    else if c.toNat = 9 then ['\\', 't']
    else if c.toNat = 12 then ['\\', 'f']
    else if c.toNat = 13 then ['\\', 'r']
    else '\\' :: 'u' :: hex4 c.toNat
  else if c = '\x27' then ['\\', '\x27']
  else if c = '"' then ['\\', '"']
  else if c = '\\' then ['\\', '\\']
  else if c = '/' then ['\\', '/']
  else [c]

/-- Model of `$util.escapeJavaScript`. -/
def escapeJavaScript (s : String) : String :=
  String.mk (s.data.map escJSChar).flatten

/-- Model of `.replaceAll("\\'", "'")`: leftmost non-overlapping
replacement of the two-character sequence backslash-quote by a bare
quote. -/
def fixQuotes : List Char → List Char
  | [] => []
  | c :: cs =>
    if c = '\\' then
      match cs with
      | c2 :: cs2 => if c2 = '\x27' then '\x27' :: fixQuotes cs2 else c :: fixQuotes (c2 :: cs2)
      | [] => [c]
    else c :: fixQuotes cs

/-- The escape-then-unescape-quotes transform applied to error strings
and to flattened response keys (template lines 54-55 and 71). -/
def escFixed (s : String) : String :=
  String.mk (fixQuotes (escapeJavaScript s).data)

/-- Insertion into the ordered `requestOverride.querystring` map: an
existing key keeps its position and gets the new value, a new key is
appended. -/
def insertAssoc : List (String × String) → String → String → List (String × String)
  | [], k, v => [(k, v)]
  | kv :: rest, k, v =>
    if kv.1 == k then (kv.1, v) :: rest else kv :: insertAssoc rest k v

/-- Left fold of querystring insertions over the decoded pairs, in
their original order. -/
def foldInsert (acc : List (String × String)) : List (String × String) → List (String × String)
  | [] => acc
  | kv :: rest => foldInsert (insertAssoc acc kv.1 kv.2) rest

/-- Processing of one `&`-separated pair (template lines 48-49): split
once on the first `=` (a pair without `=` makes index 1 fail), decode
key and value independently. -/
def decodePair (pair : List Char) : Option (String × String) :=
  match (splitN '=' 1 pair).get? 1 with
  | none => none
  | some vRaw =>
    match decodeList ((splitN '=' 1 pair).headD []) with
    | none => none
    | some k =>
      match decodeList vRaw with
      | none => none
      | some v => some (String.mk k, String.mk v)

/-- Decode every pair, in order; any failing pair rejects the whole
translation. -/
def decodeAllPairs : List (List Char) → Option (List (String × String))
  | [] => some []
  | p :: ps =>
    match decodePair p, decodeAllPairs ps with
    | some kv, some rest => some (kv :: rest)
    | _, _ => none

/-- Split of the raw query on `&` followed by pair decoding (template
lines 47-51), before map insertion. -/
def decodedPairs (rawQuery : List Char) : Option (List (String × String)) :=
  decodeAllPairs (splitFullL '&' rawQuery)

/-- The full query parse: decoded pairs inserted left to right into the
ordered override map. -/
def parseQuery (rawQuery : List Char) : Option (List (String × String)) :=
  match decodedPairs rawQuery with
  | some l => some (foldInsert [] l)
  | none => none

/-- Does the event carry the function-error marker
(`$details.responseContext.containsKey('functionError')`)? -/
def hasFunctionError (d : EventDetail) : Bool :=
  containsKey d.responseContext "functionError"

/-- Model of `$input.json` on a one-component path: a found key splices
its JSON value, a missing key renders as an empty splice. -/
def inputJsonField (m : List (String × Json)) (k : String) : JField :=
  match assocLookup m k with
  | some j => JField.json j
  | none => JField.absent

/-- JSONPath member-chain evaluation used for the interpolated path
`$.detail.responsePayload.$responseKey`: each dot in the key adds a
nesting step. -/
def jsonPathLookup : Json → List String → Option Json
  | j, [] => some j
  | Json.obj m, p :: rest =>
    match assocLookup m p with
    | some v => jsonPathLookup v rest
    | none => none
  | _, _ :: _ => none

/-- Model of `$input.json("$.detail.responsePayload.$responseKey")`:
the original (unescaped) key is interpolated into the JSONPath, so its
dots act as member separators. -/
def jsonPathField (m : List (String × Json)) (k : String) : JField :=
  match jsonPathLookup (Json.obj m) ((splitAllL '.' k.data).map String.mk) with
  | some j => JField.json j
  | none => JField.absent

/-- PhysicalResourceId selection (template lines 63-67): the verbatim
requestPayload value when the key is present, otherwise the
requestPayload RequestId. -/
def physField (d : EventDetail) : JField :=
  if containsKey d.requestPayload "PhysicalResourceId" then
    inputJsonField d.requestPayload "PhysicalResourceId"
  else
    inputJsonField d.requestPayload "RequestId"

/-- Fixed trailing fields (template lines 76-78). -/
def fixedTail (d : EventDetail) : List (String × JField) :=
  [("StackId", inputJsonField d.requestPayload "StackId"),
   ("RequestId", inputJsonField d.requestPayload "RequestId"),
   ("LogicalResourceId", inputJsonField d.requestPayload "LogicalResourceId")]

/-- Flattened response payload (template lines 70-73): each key is
escaped for emission, each value is looked up under the original key
through the interpolated JSONPath. -/
def payloadFields (d : EventDetail) : List (String × JField) :=
  d.responsePayload.map (fun kv => (escFixed kv.1, jsonPathField d.responsePayload kv.1))

/-- The emitted body (template lines 52-79), in emission order. -/
def buildBody (d : EventDetail) : Option (List (String × JField)) :=
  if hasFunctionError d then
    match lookupStr d.responsePayload "errorType",
          lookupStr d.responsePayload "errorMessage" with
    | some et, some em =>
      some ([("Status", JField.raw "FAILED"),
             ("Reason", JField.raw ("Unhandled error: " ++ escFixed et ++ ": " ++ escFixed em)),
             ("PhysicalResourceId", physField d)] ++ fixedTail d)
    | _, _ => none
  else
    some ([("Status", JField.raw "SUCCESS"),
           ("Reason", JField.raw ""),
           ("PhysicalResourceId", physField d)] ++ payloadFields d ++ fixedTail d)

/-- The whole translator (template lines 44-79): URL decomposition
(split on `/` with limit 4, index 3; split on `?` with limit 2), path
decoding, query parsing, body construction.  Any template evaluation
error rejects the translation. -/
def translate (d : EventDetail) : Option OutboundRequest :=
  match lookupStr d.requestPayload "ResponseURL" with
  | none => none
  | some url =>
    match (splitN '/' 3 url.data).get? 3 with
    | none => none
    | some fullPath =>
      match decodeList ((splitN '?' 1 fullPath).headD []) with
      | none => none
      | some path =>
        match (splitN '?' 1 fullPath).get? 1 with
        | none => none
        | some rawQuery =>
          match parseQuery rawQuery with
          | none => none
          | some query =>
            match buildBody d with
            | none => none
            | some body => some ⟨String.mk path, query, body⟩

/-- First body field stored under key `k`. -/
def bodyLookup (r : OutboundRequest) (k : String) : Option JField :=
  (r.body.find? (fun kv => kv.1 == k)).map (fun kv => kv.2)

/-- Modelled from the spec: the literal percent-decoder the spec words
describe ("percent-decode"), which maps `%XY` escapes to their
character and leaves every other character, including `+`, unchanged.
Used to compare the spec wording against the decoder the code calls. -/
def percentDecodeSpecList : List Char → Option (List Char)
  | [] => some []
  | c :: cs =>
    if c = '%' then
      match cs with
      | a :: b :: cs2 =>
        match hexVal a, hexVal b with
        | some x, some y =>
          (percentDecodeSpecList cs2).map (fun ds => Char.ofNat (16 * x + y) :: ds)
        | _, _ => none
      | _ => none
    else (percentDecodeSpecList cs).map (fun ds => c :: ds)

/-- Modelled from the spec: string-level literal percent-decoder. -/
def percentDecodeSpec (s : String) : Option String :=
  (percentDecodeSpecList s.data).map String.mk

/-- Percent-encoder parameterised by the set of characters that must be
escaped; escapes use two uppercase hexadecimal digits.  Used to state
the losslessness (round-trip) property. -/
def urlEncodeWith (enc : Char → Bool) : List Char → List Char
  | [] => []
  | c :: cs =>
    (if enc c then ['%', uhex (c.toNat / 16), uhex (c.toNat % 16)] else [c]) ++
      urlEncodeWith enc cs

/-- Canonically encoded strings for a must-escape set `enc`: literal
characters are unescaped exactly when `enc` does not require escaping
(and are never `+` or `%`), and every escape is the uppercase-hex
escape of a character `enc` requires escaping. -/
def canonList (enc : Char → Bool) : List Char → Bool
  | [] => true
  | c :: cs =>
    if c = '+' then false
    else if c = '%' then
      match cs with
      | a :: b :: cs2 =>
        match hexVal a, hexVal b with
        | some x, some y =>
          (uhex x == a) && (uhex y == b) && enc (Char.ofNat (16 * x + y)) &&
            canonList enc cs2
        | _, _ => false
      | _ => false
    else !enc c && canonList enc cs

/-- Separator-joined concatenation of segments, used to state the
query-string round trip. -/
def joinSep (sep : Char) : List (List Char) → List Char
  | [] => []
  | [p] => p
  | p :: ps => p ++ sep :: joinSep sep ps

/-! Lemmas about the splitting functions. -/

theorem splitN_nosep (sep : Char) (n : Nat) (cs : List Char) (h : sep ∉ cs) :
    splitN sep n cs = [cs] := by
  induction cs generalizing n with
  | nil => cases n <;> rfl
  | cons c cs ih =>
    cases n with
    | zero => rfl
    | succ n =>
      have hc : ¬c = sep := fun hc => h (hc ▸ List.mem_cons_self c cs)
      have hcs : sep ∉ cs := fun hm => h (List.mem_cons_of_mem c hm)
      simp only [splitN, if_neg hc]
      rw [ih (n + 1) hcs]

theorem splitN_append (sep : Char) (n : Nat) (a rest : List Char) (h : sep ∉ a) :
    splitN sep (n + 1) (a ++ sep :: rest) = a :: splitN sep n rest := by
  induction a with
  | nil => simp [splitN]
  | cons c a ih =>
    have hc : ¬c = sep := fun hc => h (hc ▸ List.mem_cons_self c a)
    have ha : sep ∉ a := fun hm => h (List.mem_cons_of_mem c hm)
    simp only [List.cons_append, splitN, if_neg hc, List.append_eq]
    rw [ih ha]

theorem splitAllL_nosep (sep : Char) (cs : List Char) (h : sep ∉ cs) :
    splitAllL sep cs = [cs] := by
  induction cs with
  | nil => rfl
  | cons c cs ih =>
    have hc : ¬c = sep := fun hc => h (hc ▸ List.mem_cons_self c cs)
    have hcs : sep ∉ cs := fun hm => h (List.mem_cons_of_mem c hm)
    simp only [splitAllL, if_neg hc, ih hcs]

theorem splitAllL_append (sep : Char) (a rest : List Char) (h : sep ∉ a) :
    splitAllL sep (a ++ sep :: rest) = a :: splitAllL sep rest := by
  induction a with
  | nil => simp [splitAllL]
  | cons c a ih =>
    have hc : ¬c = sep := fun hc => h (hc ▸ List.mem_cons_self c a)
    have ha : sep ∉ a := fun hm => h (List.mem_cons_of_mem c hm)
    simp only [List.cons_append, splitAllL, if_neg hc, List.append_eq]
    rw [ih ha]

theorem dropTrailingEmpties_of_ne (l : List (List Char)) (h : ∀ x ∈ l, x ≠ []) :
    dropTrailingEmpties l = l := by
  unfold dropTrailingEmpties
  have : l.reverse.dropWhile (fun s => s.isEmpty) = l.reverse := by
    cases hrev : l.reverse with
    | nil => rfl
    | cons x xs =>
      have hx : x ∈ l := by
        have : x ∈ l.reverse := hrev ▸ List.mem_cons_self x xs
        exact List.mem_reverse.mp this
      have : x.isEmpty = false := by
        cases x with
        | nil => exact absurd rfl (h [] hx)
        | cons y ys => rfl
      simp [List.dropWhile, this]
  rw [this, List.reverse_reverse]

theorem splitAllL_joinSep (sep : Char) (parts : List (List Char)) (hne : parts ≠ [])
    (h : ∀ p ∈ parts, sep ∉ p) :
    splitAllL sep (joinSep sep parts) = parts := by
  induction parts with
  | nil => exact absurd rfl hne
  | cons p ps ih =>
    cases ps with
    | nil =>
      simp only [joinSep]
      exact splitAllL_nosep sep p (h p (List.mem_cons_self p []))
    | cons q qs =>
      have hjoin : joinSep sep (p :: q :: qs) = p ++ sep :: joinSep sep (q :: qs) := rfl
      rw [hjoin, splitAllL_append sep p _ (h p (List.mem_cons_self p _)),
        ih (by simp) (fun x hx => h x (List.mem_cons_of_mem p hx))]

theorem splitFullL_joinSep (sep : Char) (parts : List (List Char)) (hne : parts ≠ [])
    (h : ∀ p ∈ parts, sep ∉ p ∧ p ≠ []) :
    splitFullL sep (joinSep sep parts) = parts := by
  cases parts with
  | nil => exact absurd rfl hne
  | cons p ps =>
    cases ps with
    | nil =>
      have hp := h p (List.mem_cons_self p [])
      simp only [joinSep, splitFullL, if_neg hp.1]
    | cons q qs =>
      have hmem : sep ∈ joinSep sep (p :: q :: qs) := by
        show sep ∈ p ++ sep :: joinSep sep (q :: qs)
        exact List.mem_append_right p (List.mem_cons_self sep _)
      rw [splitFullL, if_pos hmem,
        splitAllL_joinSep sep _ (by simp) (fun x hx => (h x hx).1)]
      exact dropTrailingEmpties_of_ne _ (fun x hx => (h x hx).2)

/-! Lemmas about hexadecimal digits and characters. -/

theorem hexVal_lt (c : Char) (x : Nat) (h : hexVal c = some x) : x < 16 := by
  unfold hexVal at h
  split_ifs at h <;> (cases h; omega)

set_option maxRecDepth 4000 in
theorem char_toNat_ofNat : ∀ m : Nat, m < 256 → (Char.ofNat m).toNat = m := by
  decide

/-! Round-trip lemmas for canonically encoded strings. -/

theorem canon_roundtrip_fuel (enc : Char → Bool) :
    ∀ n (cs : List Char), cs.length ≤ n → canonList enc cs = true →
      ∃ ds, decodeList cs = some ds ∧ urlEncodeWith enc ds = cs := by
  intro n
  induction n with
  | zero =>
    intro cs hlen _
    have hnil : cs = [] := List.length_eq_zero.mp (Nat.le_zero.mp hlen)
    subst hnil
    exact ⟨[], rfl, rfl⟩
  | succ n ih =>
    intro cs hlen h
    cases cs with
    | nil => exact ⟨[], rfl, rfl⟩
    | cons c cs' =>
      rw [canonList.eq_def] at h
      by_cases hplus : c = '+'
      · simp only [if_pos hplus] at h
        exact Bool.noConfusion h
      · by_cases hpct : c = '%'
        · simp only [if_neg hplus, if_pos hpct] at h
          split at h
          · rename_i a b cs2
            split at h
            · rename_i x y hx hy
              simp only [Bool.and_eq_true, beq_iff_eq] at h
              obtain ⟨⟨⟨ha, hb⟩, henc⟩, hcanon⟩ := h
              have hlen2 : cs2.length ≤ n := by
                simp only [List.length_cons] at hlen; omega
              obtain ⟨ds, hdec, hencode⟩ := ih cs2 hlen2 hcanon
              refine ⟨Char.ofNat (16 * x + y) :: ds, ?_, ?_⟩
              · rw [decodeList.eq_def]
                simp only [if_neg hplus, if_pos hpct, hx, hy, hdec, Option.map_some']
              · have hx16 := hexVal_lt a x hx
                have hy16 := hexVal_lt b y hy
                have htn : (Char.ofNat (16 * x + y)).toNat = 16 * x + y :=
                  char_toNat_ofNat _ (by omega)
                rw [urlEncodeWith.eq_def]
                simp only [if_pos henc, hencode, htn]
                have h1 : (16 * x + y) / 16 = x := by omega
                have h2 : (16 * x + y) % 16 = y := by omega
                rw [h1, h2, ha, hb, hpct]
                rfl
            · exact absurd h (by simp)
          · exact absurd h (by simp)
        · simp only [if_neg hplus, if_neg hpct, Bool.and_eq_true,
            Bool.not_eq_true'] at h
          obtain ⟨henc, hcanon⟩ := h
          have hlen2 : cs'.length ≤ n := by
            simp only [List.length_cons] at hlen; omega
          obtain ⟨ds, hdec, hencode⟩ := ih cs' hlen2 hcanon
          refine ⟨c :: ds, ?_, ?_⟩
          · rw [decodeList.eq_def]
            simp only [if_neg hplus, if_neg hpct, hdec, Option.map_some']
          · rw [urlEncodeWith.eq_def]
            simp only [henc, hencode, Bool.false_eq_true, if_false,
              List.singleton_append]

theorem canon_roundtrip (enc : Char → Bool) (cs : List Char)
    (h : canonList enc cs = true) :
    ∃ ds, decodeList cs = some ds ∧ urlEncodeWith enc ds = cs :=
  canon_roundtrip_fuel enc cs.length cs (Nat.le_refl _) h

theorem canon_not_mem_fuel (enc : Char → Bool) (c : Char) (hc : enc c = true)
    (hhex : hexVal c = none) (hpc : c ≠ '%') :
    ∀ n (cs : List Char), cs.length ≤ n → canonList enc cs = true → c ∉ cs := by
  intro n
  induction n with
  | zero =>
    intro cs hlen _
    have hnil : cs = [] := List.length_eq_zero.mp (Nat.le_zero.mp hlen)
    subst hnil
    exact List.not_mem_nil c
  | succ n ih =>
    intro cs hlen h
    cases cs with
    | nil => exact List.not_mem_nil c
    | cons d cs' =>
      rw [canonList.eq_def] at h
      by_cases hplus : d = '+'
      · simp only [if_pos hplus] at h
        exact Bool.noConfusion h
      · by_cases hpct : d = '%'
        · simp only [if_neg hplus, if_pos hpct] at h
          split at h
          · rename_i a b cs2
            split at h
            · rename_i x y hx hy
              simp only [Bool.and_eq_true, beq_iff_eq] at h
              obtain ⟨⟨⟨ha, hb⟩, henc⟩, hcanon⟩ := h
              have hlen2 : cs2.length ≤ n := by
                simp only [List.length_cons] at hlen; omega
              have hrec := ih cs2 hlen2 hcanon
              intro hmem
              rcases List.mem_cons.mp hmem with hd | hmem2
              · exact hpc (hd.trans hpct)
              · rcases List.mem_cons.mp hmem2 with hd | hmem3
                · rw [hd, hx] at hhex; exact Option.noConfusion hhex
                · rcases List.mem_cons.mp hmem3 with hd | hmem4
                  · rw [hd, hy] at hhex; exact Option.noConfusion hhex
                  · exact hrec hmem4
            · exact absurd h (by simp)
          · exact absurd h (by simp)
        · simp only [if_neg hplus, if_neg hpct, Bool.and_eq_true,
            Bool.not_eq_true'] at h
          obtain ⟨henc, hcanon⟩ := h
          have hlen2 : cs'.length ≤ n := by
            simp only [List.length_cons] at hlen; omega
          intro hmem
          rcases List.mem_cons.mp hmem with hd | hmem2
          · rw [hd] at hc; rw [hc] at henc; exact Bool.noConfusion henc
          · exact ih cs' hlen2 hcanon hmem2

theorem canon_not_mem (enc : Char → Bool) (c : Char) (hc : enc c = true)
    (hhex : hexVal c = none) (hpc : c ≠ '%') (cs : List Char)
    (h : canonList enc cs = true) : c ∉ cs :=
  canon_not_mem_fuel enc c hc hhex hpc cs.length cs (Nat.le_refl _) h

/-! Lemmas about the ordered querystring-override map. -/

theorem insertAssoc_find? (m : List (String × String)) (k v k' : String) :
    ((insertAssoc m k v).find? (fun kv => kv.1 == k')).map Prod.snd =
      if k' = k then some v else (m.find? (fun kv => kv.1 == k')).map Prod.snd := by
  induction m with
  | nil =>
    by_cases hk : k' = k
    · subst hk; simp [insertAssoc]
    · have h1 : (k == k') = false := beq_eq_false_iff_ne.mpr (fun he => hk he.symm)
      simp [insertAssoc, if_neg hk, List.find?, h1]
  | cons kv rest ih =>
    by_cases hkv : kv.1 = k
    · simp only [insertAssoc, beq_iff_eq, if_pos hkv]
      by_cases hk : k' = k
      · subst hk
        simp [List.find?, hkv]
      · have h1 : (kv.1 == k') = false := beq_eq_false_iff_ne.mpr (hkv ▸ Ne.symm hk)
        simp [List.find?, h1, if_neg hk]
    · simp only [insertAssoc, beq_iff_eq, if_neg hkv]
      by_cases hk' : kv.1 = k'
      · have h1 : (kv.1 == k') = true := beq_iff_eq.mpr hk'
        have hk : ¬k' = k := fun he => hkv (he ▸ hk')
        simp [List.find?, h1, if_neg hk]
      · have h1 : (kv.1 == k') = false := beq_eq_false_iff_ne.mpr hk'
        simp only [List.find?, h1]
        exact ih

theorem insertAssoc_keys (m : List (String × String)) (k v : String) :
    (insertAssoc m k v).map Prod.fst =
      if k ∈ m.map Prod.fst then m.map Prod.fst else m.map Prod.fst ++ [k] := by
  induction m with
  | nil => simp [insertAssoc]
  | cons kv rest ih =>
    by_cases hkv : kv.1 = k
    · simp only [insertAssoc, beq_iff_eq, if_pos hkv, List.map_cons]
      rw [if_pos (by simp [hkv])]
    · simp only [insertAssoc, beq_iff_eq, if_neg hkv, List.map_cons, ih]
      by_cases hk : k ∈ rest.map Prod.fst
      · rw [if_pos hk, if_pos (by simp [hk])]
      · rw [if_neg hk, if_neg (by
          simp only [List.mem_cons]
          push_neg
          exact ⟨fun h => hkv h.symm, hk⟩)]
        simp

theorem insertAssoc_of_not_mem (m : List (String × String)) (k v : String)
    (h : k ∉ m.map Prod.fst) : insertAssoc m k v = m ++ [(k, v)] := by
  induction m with
  | nil => rfl
  | cons kv rest ih =>
    have hkv : ¬kv.1 = k := fun he => h (by simp [he])
    simp only [insertAssoc, beq_iff_eq, if_neg hkv, List.cons_append]
    rw [ih (fun hm => h (by simp [hm]))]

theorem insertAssoc_nodup (m : List (String × String)) (k v : String)
    (h : (m.map Prod.fst).Nodup) : ((insertAssoc m k v).map Prod.fst).Nodup := by
  rw [insertAssoc_keys]
  by_cases hk : k ∈ m.map Prod.fst
  · rwa [if_pos hk]
  · rw [if_neg hk]
    simp [List.nodup_append, h, hk]

theorem mem_keys_insertAssoc (m : List (String × String)) (k v k' : String) :
    k' ∈ (insertAssoc m k v).map Prod.fst ↔ k' ∈ m.map Prod.fst ∨ k' = k := by
  rw [insertAssoc_keys]
  by_cases hk : k ∈ m.map Prod.fst
  · rw [if_pos hk]
    constructor
    · exact Or.inl
    · rintro (h | rfl)
      · exact h
      · exact hk
  · rw [if_neg hk]
    simp

theorem foldInsert_of_nodup (l : List (String × String)) :
    ∀ acc, ((acc ++ l).map Prod.fst).Nodup → foldInsert acc l = acc ++ l := by
  induction l with
  | nil => intro acc _; simp [foldInsert]
  | cons kv rest ih =>
    intro acc h
    obtain ⟨k0, v0⟩ := kv
    have hnot : k0 ∉ acc.map Prod.fst := by
      intro hmem
      rw [List.map_append] at h
      have h2 := (List.nodup_append.mp h).2.2
      exact h2 hmem (by simp)
    simp only [foldInsert]
    rw [insertAssoc_of_not_mem acc k0 v0 hnot]
    have happ : acc ++ [(k0, v0)] ++ rest = acc ++ (k0, v0) :: rest := by simp
    rw [ih (acc ++ [(k0, v0)]) (by rw [happ]; exact h), happ]

theorem foldInsert_find? (k : String) :
    ∀ (l acc : List (String × String)),
      ((foldInsert acc l).find? (fun kv => kv.1 == k)).map Prod.snd =
        match l.reverse.find? (fun kv => kv.1 == k) with
        | some kv => some kv.2
        | none => (acc.find? (fun kv => kv.1 == k)).map Prod.snd := by
  intro l
  induction l with
  | nil => intro acc; rfl
  | cons p rest ih =>
    intro acc
    simp only [foldInsert, List.reverse_cons]
    rw [ih (insertAssoc acc p.1 p.2)]
    rw [List.find?_append]
    cases hfind : rest.reverse.find? (fun kv => kv.1 == k) with
    | some kv => simp [hfind]
    | none =>
      simp only [hfind, Option.none_orElse]
      rw [insertAssoc_find?]
      by_cases hk : k = p.1
      · subst hk
        simp [List.find?]
      · have h1 : (p.1 == k) = false := beq_eq_false_iff_ne.mpr (Ne.symm hk)
        simp [List.find?, h1, if_neg hk]

theorem foldInsert_mem_keys (k : String) :
    ∀ (l acc : List (String × String)),
      k ∈ (foldInsert acc l).map Prod.fst ↔
        k ∈ acc.map Prod.fst ∨ k ∈ l.map Prod.fst := by
  intro l
  induction l with
  | nil => intro acc; simp [foldInsert]
  | cons p rest ih =>
    intro acc
    simp only [foldInsert, List.map_cons]
    rw [ih (insertAssoc acc p.1 p.2)]
    rw [mem_keys_insertAssoc]
    simp only [List.mem_cons]
    tauto

theorem foldInsert_nodup (l : List (String × String)) :
    ∀ acc, ((acc.map Prod.fst).Nodup) → (((foldInsert acc l).map Prod.fst).Nodup) := by
  induction l with
  | nil => intro acc h; exact h
  | cons p rest ih =>
    intro acc h
    simp only [foldInsert]
    exact ih _ (insertAssoc_nodup acc p.1 p.2 h)

theorem filter_length_of_nodup (m : List (String × String)) (k : String)
    (h : (m.map Prod.fst).Nodup) (hk : k ∈ m.map Prod.fst) :
    (m.filter (fun kv => kv.1 == k)).length = 1 := by
  induction m with
  | nil => simp at hk
  | cons kv rest ih =>
    simp only [List.map_cons, List.nodup_cons] at h
    by_cases hkv : kv.1 = k
    · have h1 : (kv.1 == k) = true := beq_iff_eq.mpr hkv
      have hnot : rest.filter (fun kv => kv.1 == k) = [] := by
        rw [List.filter_eq_nil_iff]
        intro a ha
        simp only [beq_iff_eq]
        intro hak
        exact h.1 (List.mem_map.mpr ⟨a, ha, by rw [hak, hkv]⟩)
      simp [List.filter, h1, hnot]
    · have h1 : (kv.1 == k) = false := beq_eq_false_iff_ne.mpr hkv
      have hk2 : k ∈ rest.map Prod.fst := by
        rcases List.mem_map.mp hk with ⟨a, ha, hak⟩
        rcases List.mem_cons.mp ha with rfl | ha2
        · exact absurd hak hkv
        · exact List.mem_map.mpr ⟨a, ha2, hak⟩
      simp only [List.filter, h1]
      exact ih h.2 hk2

/-! Dissection lemmas for the translator pipeline. -/

theorem translate_some (d : EventDetail) (r : OutboundRequest)
    (h : translate d = some r) :
    ∃ url fullPath path rawQuery query body,
      lookupStr d.requestPayload "ResponseURL" = some url ∧
      (splitN '/' 3 url.data).get? 3 = some fullPath ∧
      decodeList ((splitN '?' 1 fullPath).headD []) = some path ∧
      (splitN '?' 1 fullPath).get? 1 = some rawQuery ∧
      parseQuery rawQuery = some query ∧
      buildBody d = some body ∧
      r.path = String.mk path ∧ r.query = query ∧ r.body = body := by
  unfold translate at h
  split at h
  · exact Option.noConfusion h
  rename_i url hurl
  split at h
  · exact Option.noConfusion h
  rename_i fullPath hfp
  split at h
  · exact Option.noConfusion h
  rename_i path hpath
  split at h
  · exact Option.noConfusion h
  rename_i rawQuery hrq
  split at h
  · exact Option.noConfusion h
  rename_i query hq
  split at h
  · exact Option.noConfusion h
  rename_i body hb
  have hr := (Option.some.inj h).symm
  subst hr
  exact ⟨url, fullPath, path, rawQuery, query, body, hurl, hfp, hpath, hrq, hq, hb,
    rfl, rfl, rfl⟩

theorem buildBody_failed (d : EventDetail) (b : List (String × JField))
    (hf : hasFunctionError d = true) (h : buildBody d = some b) :
    ∃ et em,
      lookupStr d.responsePayload "errorType" = some et ∧
      lookupStr d.responsePayload "errorMessage" = some em ∧
      b = [("Status", JField.raw "FAILED"),
           ("Reason", JField.raw ("Unhandled error: " ++ escFixed et ++ ": " ++ escFixed em)),
           ("PhysicalResourceId", physField d)] ++ fixedTail d := by
  unfold buildBody at h
  rw [if_pos hf] at h
  split at h
  · rename_i et em het hem
    exact ⟨et, em, het, hem, (Option.some.inj h).symm⟩
  · exact Option.noConfusion h

theorem buildBody_success (d : EventDetail) (b : List (String × JField))
    (hf : hasFunctionError d = false) (h : buildBody d = some b) :
    b = [("Status", JField.raw "SUCCESS"),
         ("Reason", JField.raw ""),
         ("PhysicalResourceId", physField d)] ++ payloadFields d ++ fixedTail d := by
  unfold buildBody at h
  rw [if_neg (by rw [hf]; exact Bool.false_ne_true)] at h
  exact (Option.some.inj h).symm

theorem translate_none_of_no_url (d : EventDetail)
    (h : lookupStr d.requestPayload "ResponseURL" = none) : translate d = none := by
  unfold translate
  simp only [h]

theorem translate_none_of_no_fullPath (d : EventDetail) (url : String)
    (hurl : lookupStr d.requestPayload "ResponseURL" = some url)
    (h : (splitN '/' 3 url.data).get? 3 = none) : translate d = none := by
  unfold translate
  simp only [hurl, h]

theorem translate_none_of_no_rawQuery (d : EventDetail) (url : String) (fullPath : List Char)
    (hurl : lookupStr d.requestPayload "ResponseURL" = some url)
    (hfp : (splitN '/' 3 url.data).get? 3 = some fullPath)
    (h : (splitN '?' 1 fullPath).get? 1 = none) : translate d = none := by
  unfold translate
  simp only [hurl, hfp]
  cases hdec : decodeList ((splitN '?' 1 fullPath).headD []) with
  | none => simp only [hdec]
  | some path => simp only [hdec, h]

theorem translate_none_of_bad_query (d : EventDetail) (url : String)
    (fullPath rawQuery : List Char)
    (hurl : lookupStr d.requestPayload "ResponseURL" = some url)
    (hfp : (splitN '/' 3 url.data).get? 3 = some fullPath)
    (hrq : (splitN '?' 1 fullPath).get? 1 = some rawQuery)
    (h : parseQuery rawQuery = none) : translate d = none := by
  unfold translate
  simp only [hurl, hfp]
  cases hdec : decodeList ((splitN '?' 1 fullPath).headD []) with
  | none => simp only [hdec]
  | some path => simp only [hdec, hrq, h]

/-! Lemmas about pair decoding. -/

theorem decodePair_no_eq (p : List Char) (h : '=' ∉ p) : decodePair p = none := by
  unfold decodePair
  rw [splitN_nosep '=' 1 p h]
  rfl

theorem decodeAllPairs_none (ps : List (List Char)) (p : List Char)
    (hp : p ∈ ps) (h : decodePair p = none) : decodeAllPairs ps = none := by
  induction ps with
  | nil => simp at hp
  | cons q rest ih =>
    rcases List.mem_cons.mp hp with rfl | hp2
    · unfold decodeAllPairs
      rw [h]
    · unfold decodeAllPairs
      rw [ih hp2]
      cases decodePair q <;> rfl

theorem parseQuery_none_of_pair (rawQuery : List Char) (p : List Char)
    (hp : p ∈ splitFullL '&' rawQuery) (h : '=' ∉ p) : parseQuery rawQuery = none := by
  unfold parseQuery decodedPairs
  rw [decodeAllPairs_none _ p hp (decodePair_no_eq p h)]

theorem splitN_zero (sep : Char) (cs : List Char) : splitN sep 0 cs = [cs] := by
  cases cs <;> rfl

theorem decodePair_split (k v : List Char) (hk : '=' ∉ k) (dk dv : List Char)
    (hdk : decodeList k = some dk) (hdv : decodeList v = some dv) :
    decodePair (k ++ '=' :: v) = some (String.mk dk, String.mk dv) := by
  unfold decodePair
  rw [splitN_append '=' 0 k v hk, splitN_zero]
  simp only [List.get?_cons_succ, List.get?_cons_zero, List.headD_cons]
  simp only [hdk, hdv]

theorem decodeAllPairs_cons (p : List Char) (ps : List (List Char))
    (kv : String × String) (l : List (String × String))
    (hp : decodePair p = some kv) (hps : decodeAllPairs ps = some l) :
    decodeAllPairs (p :: ps) = some (kv :: l) := by
  unfold decodeAllPairs
  rw [hp, hps]

/-! Miscellaneous glue lemmas. -/

theorem string_mk_data (s : String) : String.mk s.data = s := rfl

theorem jsonPathLookup_nil (j : Json) : jsonPathLookup j [] = some j := by
  cases j <;> rfl

theorem jsonPathField_no_dot (m : List (String × Json)) (k : String) (j : Json)
    (hdot : '.' ∉ k.data) (h : assocLookup m k = some j) :
    jsonPathField m k = JField.json j := by
  unfold jsonPathField
  rw [splitAllL_nosep '.' k.data hdot]
  simp only [List.map_cons, List.map_nil, string_mk_data]
  unfold jsonPathLookup
  simp only [h, jsonPathLookup_nil]

theorem bodyLookup_eq (r : OutboundRequest) (k : String) :
    bodyLookup r k = (r.body.find? (fun kv => kv.1 == k)).map (fun kv => kv.2) := rfl

/-- C1: for every well-formed event, the body Status is FAILED exactly
when the event carries the function-error marker, SUCCESS otherwise,
and a failure body contains no flattened responsePayload key: its keys
are exactly the six fixed fields. -/
theorem C1_status_discrimination (d : EventDetail) (r : OutboundRequest)
    (h : translate d = some r) :
    (bodyLookup r "Status" = some (JField.raw "FAILED") ↔ hasFunctionError d = true) ∧
    (hasFunctionError d = false →
      bodyLookup r "Status" = some (JField.raw "SUCCESS")) ∧
    (hasFunctionError d = true →
      r.body.map Prod.fst =
        ["Status", "Reason", "PhysicalResourceId", "StackId", "RequestId",
         "LogicalResourceId"]) := by
  obtain ⟨url, fullPath, path, rawQuery, query, body, hurl, hfp, hpath, hrq, hq, hb,
    hpr, hqr, hbr⟩ := translate_some d r h
  cases hf : hasFunctionError d with
  | true =>
    obtain ⟨et, em, het, hem, hbody⟩ := buildBody_failed d body hf hb
    subst hbody
    refine ⟨by simp [bodyLookup, hbr, List.find?, hf], ?_, ?_⟩
    · intro hcontra
      exact Bool.noConfusion hcontra
    · intro _
      rw [hbr]
      simp [fixedTail]
  | false =>
    have hbody := buildBody_success d body hf hb
    subst hbody
    refine ⟨by simp [bodyLookup, hbr, List.find?, hf], ?_, ?_⟩
    · intro _
      simp [bodyLookup, hbr, List.find?]
    · intro hcontra
      exact Bool.noConfusion hcontra

theorem physField_of_present (d : EventDetail) (j : Json)
    (h : assocLookup d.requestPayload "PhysicalResourceId" = some j) :
    physField d = JField.json j := by
  unfold physField containsKey inputJsonField
  simp [h]

theorem physField_of_absent (d : EventDetail) (j : Json)
    (h : assocLookup d.requestPayload "PhysicalResourceId" = none)
    (hr : assocLookup d.requestPayload "RequestId" = some j) :
    physField d = JField.json j := by
  unfold physField containsKey inputJsonField
  simp [h, hr]

theorem drop_tail3 (l t : List (String × JField)) (ht : t.length = 3) :
    (l ++ t).drop ((l ++ t).length - 3) = t := by
  rw [List.length_append, ht, Nat.add_sub_cancel, List.drop_left]

theorem fixedTail_eq (d : EventDetail) (jS jR jL : Json)
    (hS : assocLookup d.requestPayload "StackId" = some jS)
    (hR : assocLookup d.requestPayload "RequestId" = some jR)
    (hL : assocLookup d.requestPayload "LogicalResourceId" = some jL) :
    fixedTail d =
      [("StackId", JField.json jS), ("RequestId", JField.json jR),
       ("LogicalResourceId", JField.json jL)] := by
  unfold fixedTail inputJsonField
  rw [hS, hR, hL]

/-- C2: the body PhysicalResourceId is the verbatim requestPayload
PhysicalResourceId when that key is present, and the requestPayload
RequestId otherwise, for success and failure events alike. -/
theorem C2_physical_resource_id (d : EventDetail) (r : OutboundRequest)
    (h : translate d = some r) :
    (∀ j, assocLookup d.requestPayload "PhysicalResourceId" = some j →
      bodyLookup r "PhysicalResourceId" = some (JField.json j)) ∧
    (∀ j, assocLookup d.requestPayload "PhysicalResourceId" = none →
      assocLookup d.requestPayload "RequestId" = some j →
      bodyLookup r "PhysicalResourceId" = some (JField.json j)) := by
  obtain ⟨url, fullPath, path, rawQuery, query, body, hurl, hfp, hpath, hrq, hq, hb,
    hpr, hqr, hbr⟩ := translate_some d r h
  have hbody : bodyLookup r "PhysicalResourceId" = some (physField d) := by
    cases hf : hasFunctionError d with
    | true =>
      obtain ⟨et, em, _, _, hbody⟩ := buildBody_failed d body hf hb
      subst hbody
      simp [bodyLookup, hbr, List.find?]
    | false =>
      have hbody := buildBody_success d body hf hb
      subst hbody
      simp [bodyLookup, hbr, List.find?]
  constructor
  · intro j hj
    rw [hbody, physField_of_present d j hj]
  · intro j hj hrq2
    rw [hbody, physField_of_absent d j hj hrq2]

/-- C3: on a failure event the Reason text is "Unhandled error: " plus
the escaped error type, ": ", and the escaped error message, where the
escaper is the JavaScript escape with its escaped single quotes turned
back into bare quotes; on success the Reason is empty.  The concrete
conjunct shows an apostrophe staying unescaped while double quote,
newline, and backslash stay escaped. -/
theorem C3_reason_field (d : EventDetail) (r : OutboundRequest)
    (h : translate d = some r) :
    (∀ et em, hasFunctionError d = true →
      lookupStr d.responsePayload "errorType" = some et →
      lookupStr d.responsePayload "errorMessage" = some em →
      bodyLookup r "Reason" =
        some (JField.raw ("Unhandled error: " ++ escFixed et ++ ": " ++ escFixed em))) ∧
    (hasFunctionError d = false → bodyLookup r "Reason" = some (JField.raw "")) ∧
    escFixed "it\x27s \"broken\"\nback\\slash" = "it\x27s \\\"broken\\\"\\nback\\\\slash" := by
  obtain ⟨url, fullPath, path, rawQuery, query, body, hurl, hfp, hpath, hrq, hq, hb,
    hpr, hqr, hbr⟩ := translate_some d r h
  refine ⟨?_, ?_, by decide⟩
  · intro et em hf het hem
    obtain ⟨et', em', het', hem', hbody⟩ := buildBody_failed d body hf hb
    rw [het] at het'
    rw [hem] at hem'
    cases het'
    cases hem'
    subst hbody
    simp [bodyLookup, hbr, List.find?]
  · intro hf
    have hbody := buildBody_success d body hf hb
    subst hbody
    simp [bodyLookup, hbr, List.find?]

/-- C7: the body fields appear in the order Status, Reason,
PhysicalResourceId, flattened (escape-transformed) responsePayload
keys in their original order on success only, then StackId, RequestId,
LogicalResourceId, the latter three carrying the verbatim
requestPayload values. -/
theorem C7_field_order (d : EventDetail) (r : OutboundRequest) (jS jR jL : Json)
    (h : translate d = some r)
    (hS : assocLookup d.requestPayload "StackId" = some jS)
    (hR : assocLookup d.requestPayload "RequestId" = some jR)
    (hL : assocLookup d.requestPayload "LogicalResourceId" = some jL) :
    r.body.map Prod.fst =
      ["Status", "Reason", "PhysicalResourceId"] ++
        (if hasFunctionError d then []
         else d.responsePayload.map (fun kv => escFixed kv.1)) ++
        ["StackId", "RequestId", "LogicalResourceId"] ∧
    r.body.drop (r.body.length - 3) =
      [("StackId", JField.json jS), ("RequestId", JField.json jR),
       ("LogicalResourceId", JField.json jL)] := by
  obtain ⟨url, fullPath, path, rawQuery, query, body, hurl, hfp, hpath, hrq, hq, hb,
    hpr, hqr, hbr⟩ := translate_some d r h
  cases hf : hasFunctionError d with
  | true =>
    obtain ⟨et, em, _, _, hbody⟩ := buildBody_failed d body hf hb
    subst hbody
    rw [hbr]
    constructor
    · simp [fixedTail]
    · rw [drop_tail3 _ (fixedTail d) (by simp [fixedTail]),
        fixedTail_eq d jS jR jL hS hR hL]
  | false =>
    have hbody := buildBody_success d body hf hb
    subst hbody
    rw [hbr]
    constructor
    · simp only [List.map_append, List.map_cons, List.map_nil, payloadFields,
        List.map_map]
      rw [fixedTail_eq d jS jR jL hS hR hL]
      simp [Function.comp]
    · rw [drop_tail3 _ (fixedTail d) (by simp [fixedTail]),
        fixedTail_eq d jS jR jL hS hR hL]

/-- C10: each flattened body entry pairs the escape-transformed key
with the value found under the original key through the interpolated
JSONPath; for a dot-free key the lookup is the plain object lookup, and
a key changed by the escaper is emitted under a name differing from the
lookup key, as the concrete double-quote example shows. -/
theorem C10_flattened_payload (d : EventDetail) (r : OutboundRequest)
    (h : translate d = some r) (hs : hasFunctionError d = false) :
    (r.body.drop 3).take d.responsePayload.length =
      d.responsePayload.map
        (fun kv => (escFixed kv.1, jsonPathField d.responsePayload kv.1)) ∧
    (∀ k j, '.' ∉ k.data → assocLookup d.responsePayload k = some j →
      jsonPathField d.responsePayload k = JField.json j) ∧
    escFixed "a\"b" = "a\\\"b" ∧ ("a\\\"b" : String) ≠ "a\"b" := by
  obtain ⟨url, fullPath, path, rawQuery, query, body, hurl, hfp, hpath, hrq, hq, hb,
    hpr, hqr, hbr⟩ := translate_some d r h
  have hbody := buildBody_success d body hs hb
  subst hbody
  refine ⟨?_, fun k j hdot hj => jsonPathField_no_dot d.responsePayload k j hdot hj,
    by decide, by decide⟩
  rw [hbr]
  have hdrop : ([("Status", JField.raw "SUCCESS"), ("Reason", JField.raw ""),
      ("PhysicalResourceId", physField d)] ++ payloadFields d ++ fixedTail d).drop 3 =
      payloadFields d ++ fixedTail d := by
    simp
  rw [hdrop]
  have hlen : d.responsePayload.length = (payloadFields d).length := by
    simp [payloadFields]
  rw [hlen, List.take_left]
  rfl

theorem string_data_mk (l : List Char) : (String.mk l).data = l := rfl

/-- C9: when the same decoded key occurs in several query pairs, the
override map holds exactly one entry for it, whose value comes from the
last pair with that key. -/
theorem C9_duplicate_keys (rq : List Char) (l m : List (String × String)) (k : String)
    (hl : decodedPairs rq = some l) (hm : parseQuery rq = some m)
    (hk : k ∈ l.map Prod.fst) :
    (m.filter (fun kv => kv.1 == k)).length = 1 ∧
    (m.find? (fun kv => kv.1 == k)).map Prod.snd =
      (l.reverse.find? (fun kv => kv.1 == k)).map Prod.snd := by
  have hm2 : m = foldInsert [] l := by
    unfold parseQuery at hm
    rw [hl] at hm
    exact (Option.some.inj hm).symm
  subst hm2
  constructor
  · exact filter_length_of_nodup _ k (foldInsert_nodup l [] (by simp))
      ((foldInsert_mem_keys k l []).mpr (Or.inr hk))
  · rw [foldInsert_find? k l []]
    cases hfind : l.reverse.find? (fun kv => kv.1 == k) <;> rfl

/-- C5 (amended): the override map is built by splitting the raw query
on ampersands, splitting each pair once on the first equals sign, and
decoding key and value independently per
application/x-www-form-urlencoded; when the decoded keys are pairwise
distinct the output pairs keep their original order. -/
theorem C5_query_parse_order (rq : List Char) (l : List (String × String))
    (h : decodeAllPairs (splitFullL '&' rq) = some l)
    (hnd : (l.map Prod.fst).Nodup) :
    decodedPairs rq = some l ∧ parseQuery rq = some l := by
  refine ⟨h, ?_⟩
  unfold parseQuery decodedPairs
  simp only [h]
  rw [foldInsert_of_nodup l [] (by simpa using hnd)]
  rfl

/-- C5 counterexample: the decoder the code applies maps a plus sign to
a space, while the literal percent-decoder of the claim leaves it
alone; and a duplicated key collapses to a single entry instead of two
ordered pairs. -/
theorem C5_counterexample :
    parseQuery ("x=a+b".data) = some [("x", "a b")] ∧
    percentDecodeSpec "a+b" = some "a+b" ∧
    ("a b" : String) ≠ "a+b" ∧
    parseQuery ("a=1&a=2".data) = some [("a", "2")] :=
  ⟨rfl, rfl, by decide, rfl⟩

/-- Concrete event whose destination URL carries a literal plus sign in
its path segment. -/
def dPlus : EventDetail :=
  ⟨[("ResponseURL", Json.str "https://host/a+b?x=1"),
    ("StackId", Json.str "S"), ("RequestId", Json.str "R"),
    ("LogicalResourceId", Json.str "L")],
   [], []⟩

/-- C4 counterexample: for the URL https://host/a+b?x=1 the raw path is
a+b; the literal percent-decoder of the claim keeps it as a+b, but the
translator emits the path with a space. -/
theorem C4_counterexample :
    (translate dPlus).map OutboundRequest.path = some "a b" ∧
    (splitN '?' 1 ((splitN '/' 3 ("https://host/a+b?x=1".data)).getD 3 [])).headD [] =
      "a+b".data ∧
    percentDecodeSpec "a+b" = some "a+b" ∧
    ("a b" : String) ≠ "a+b" :=
  ⟨rfl, rfl, rfl, by decide⟩

/-- C4 (amended): the destination URL is split on slashes with limit 4
and segment 4 (everything after the first three slash-separated
components) is the path plus query tail; the tail is split once on the
first question mark, and the emitted path is the raw path decoded per
application/x-www-form-urlencoded. -/
theorem C4_url_decomposition (A B C P R : List Char) (d : EventDetail)
    (r : OutboundRequest) (dp : List Char)
    (hA : '/' ∉ A) (hB : '/' ∉ B) (hC : '/' ∉ C) (hP : '?' ∉ P)
    (hurl : lookupStr d.requestPayload "ResponseURL" =
      some (String.mk (A ++ '/' :: (B ++ '/' :: (C ++ '/' :: (P ++ '?' :: R))))))
    (hdp : decodeList P = some dp)
    (h : translate d = some r) :
    (splitN '/' 3 (A ++ '/' :: (B ++ '/' :: (C ++ '/' :: (P ++ '?' :: R))))).get? 3 =
      some (P ++ '?' :: R) ∧
    splitN '?' 1 (P ++ '?' :: R) = [P, R] ∧
    r.path = String.mk dp := by
  have hsplit : splitN '/' 3 (A ++ '/' :: (B ++ '/' :: (C ++ '/' :: (P ++ '?' :: R)))) =
      [A, B, C, P ++ '?' :: R] := by
    rw [splitN_append '/' 2 A _ hA, splitN_append '/' 1 B _ hB,
      splitN_append '/' 0 C _ hC, splitN_zero]
  have hqsplit : splitN '?' 1 (P ++ '?' :: R) = [P, R] := by
    rw [splitN_append '?' 0 P R hP, splitN_zero]
  obtain ⟨url, fullPath, path, rawQuery, query, body, hurl2, hfp, hpath, hrq, hq2, hb,
    hpr, hqr, hbr⟩ := translate_some d r h
  rw [hurl] at hurl2
  have hu := Option.some.inj hurl2
  subst hu
  rw [string_data_mk, hsplit] at hfp
  have hfp2 : fullPath = P ++ '?' :: R := by
    simpa using hfp.symm
  subst hfp2
  rw [hqsplit] at hpath
  simp only [List.headD_cons] at hpath
  rw [hdp] at hpath
  have hpath2 : path = dp := (Option.some.inj hpath).symm
  subst hpath2
  exact ⟨by rw [hsplit]; rfl, hqsplit, hpr⟩

/-- Concrete well-shaped event whose requestPayload lacks the required
StackId field. -/
def dNoStack : EventDetail :=
  ⟨[("ResponseURL", Json.str "https://host/p?x=1"),
    ("RequestId", Json.str "R"), ("LogicalResourceId", Json.str "L")],
   [], []⟩

/-- C8 counterexample: an event missing the required StackId field is
not rejected; the translator still produces a request whose StackId
field is an empty splice. -/
theorem C8_counterexample :
    (translate dNoStack).isSome = true ∧
    (translate dNoStack).bind (fun r => bodyLookup r "StackId") = some JField.absent :=
  ⟨rfl, rfl⟩

/-- C8 (amended): a destination URL without the 4-segment slash
structure, a tail without a question mark, and a query pair without an
equals sign each reject the translation with no outbound request; but a
missing required requestPayload field is not rejected: the body is
emitted with an empty splice in that field. -/
theorem C8_malformed_rejection (d : EventDetail) (url : String)
    (hurl : lookupStr d.requestPayload "ResponseURL" = some url) :
    ((splitN '/' 3 url.data).get? 3 = none → translate d = none) ∧
    (∀ fullPath, (splitN '/' 3 url.data).get? 3 = some fullPath →
      (splitN '?' 1 fullPath).get? 1 = none → translate d = none) ∧
    (∀ fullPath rawQuery pair,
      (splitN '/' 3 url.data).get? 3 = some fullPath →
      (splitN '?' 1 fullPath).get? 1 = some rawQuery →
      pair ∈ splitFullL '&' rawQuery → '=' ∉ pair → translate d = none) ∧
    ((translate dNoStack).isSome = true ∧
      (translate dNoStack).bind (fun r => bodyLookup r "StackId") = some JField.absent) :=
  ⟨fun h => translate_none_of_no_fullPath d url hurl h,
   fun fp hfp h => translate_none_of_no_rawQuery d url fp hurl hfp h,
   fun fp rq pair hfp hrq hmem hne =>
     translate_none_of_bad_query d url fp rq hurl hfp hrq
       (parseQuery_none_of_pair rq pair hmem hne),
   rfl, rfl⟩

theorem decodeAllPairs_roundtrip (encQ : Char → Bool) (hQeq : encQ '=' = true) :
    ∀ pairs : List (List Char × List Char),
      (∀ kv ∈ pairs, canonList encQ kv.1 = true ∧ canonList encQ kv.2 = true) →
      ∃ dpairs : List (String × String),
        decodeAllPairs (pairs.map (fun kv => kv.1 ++ '=' :: kv.2)) = some dpairs ∧
        dpairs.map (fun kv => some kv.1.data) = pairs.map (fun kv => decodeList kv.1) ∧
        dpairs.map (fun kv =>
          urlEncodeWith encQ kv.1.data ++ '=' :: urlEncodeWith encQ kv.2.data) =
          pairs.map (fun kv => kv.1 ++ '=' :: kv.2) := by
  intro pairs
  induction pairs with
  | nil => intro _; exact ⟨[], rfl, rfl, rfl⟩
  | cons kv rest ih =>
    intro hc
    obtain ⟨k, v⟩ := kv
    have hck := (hc (k, v) (List.mem_cons_self _ _)).1
    have hcv := (hc (k, v) (List.mem_cons_self _ _)).2
    obtain ⟨dk, hdk, hek⟩ := canon_roundtrip encQ k hck
    obtain ⟨dv, hdv, hev⟩ := canon_roundtrip encQ v hcv
    have hkeq : '=' ∉ k :=
      canon_not_mem encQ '=' hQeq (by decide) (by decide) k hck
    obtain ⟨drest, hdrest, hdata, henc⟩ :=
      ih (fun kv2 hkv2 => hc kv2 (List.mem_cons_of_mem _ hkv2))
    refine ⟨(String.mk dk, String.mk dv) :: drest, ?_, ?_, ?_⟩
    · rw [List.map_cons]
      exact decodeAllPairs_cons _ _ _ _
        (decodePair_split k v hkeq dk dv hdk hdv) hdrest
    · simp only [List.map_cons, string_data_mk, hdata, hdk]
    · simp only [List.map_cons, string_data_mk, hek, hev, henc]

/-- C6: for a URL of the pre-signed shape, with a canonically encoded
path tail and canonically encoded, pairwise-distinct query keys, the
decomposition performed by the translator is lossless: re-encoding the
decoded path and the decoded query pairs and re-concatenating them with
the question mark, ampersand, and equals separators reproduces the
original path-plus-query tail exactly. -/
theorem C6_roundtrip (encP encQ : Char → Bool)
    (hPq : encP '?' = true) (hQamp : encQ '&' = true) (hQeq : encQ '=' = true)
    (P : List Char) (pairs : List (List Char × List Char))
    (hcP : canonList encP P = true)
    (hc : ∀ kv ∈ pairs, canonList encQ kv.1 = true ∧ canonList encQ kv.2 = true)
    (hne : pairs ≠ [])
    (hdist : pairs.Pairwise (fun a b => decodeList a.1 ≠ decodeList b.1))
    (A B C : List Char) (hA : '/' ∉ A) (hB : '/' ∉ B) (hC : '/' ∉ C) :
    ∃ (dP : List Char) (dpairs : List (String × String)),
      (splitN '/' 3 (A ++ '/' :: (B ++ '/' :: (C ++ '/' ::
        (P ++ '?' :: joinSep '&' (pairs.map (fun kv => kv.1 ++ '=' :: kv.2))))))).get? 3 =
        some (P ++ '?' :: joinSep '&' (pairs.map (fun kv => kv.1 ++ '=' :: kv.2))) ∧
      splitN '?' 1 (P ++ '?' :: joinSep '&' (pairs.map (fun kv => kv.1 ++ '=' :: kv.2))) =
        [P, joinSep '&' (pairs.map (fun kv => kv.1 ++ '=' :: kv.2))] ∧
      decodeList P = some dP ∧
      parseQuery (joinSep '&' (pairs.map (fun kv => kv.1 ++ '=' :: kv.2))) = some dpairs ∧
      urlEncodeWith encP dP ++ '?' :: joinSep '&' (dpairs.map (fun kv =>
        urlEncodeWith encQ kv.1.data ++ '=' :: urlEncodeWith encQ kv.2.data)) =
        P ++ '?' :: joinSep '&' (pairs.map (fun kv => kv.1 ++ '=' :: kv.2)) := by
  have hQP : '?' ∉ P :=
    canon_not_mem encP '?' hPq (by decide) (by decide) P hcP
  obtain ⟨dP, hdP, heP⟩ := canon_roundtrip encP P hcP
  obtain ⟨dpairs, hdpairs, hdata, hencpairs⟩ :=
    decodeAllPairs_roundtrip encQ hQeq pairs hc
  have hsplitFull : splitFullL '&' (joinSep '&' (pairs.map (fun kv => kv.1 ++ '=' :: kv.2))) =
      pairs.map (fun kv => kv.1 ++ '=' :: kv.2) := by
    apply splitFullL_joinSep
    · intro hmapnil
      exact hne (List.map_eq_nil_iff.mp hmapnil)
    · intro p hp
      rcases List.mem_map.mp hp with ⟨kv2, hkv2, hpe⟩
      have hck := (hc kv2 hkv2).1
      have hcv := (hc kv2 hkv2).2
      constructor
      · subst hpe
        intro hmem
        rcases List.mem_append.mp hmem with hmk | hmv
        · exact canon_not_mem encQ '&' hQamp (by decide) (by decide) kv2.1 hck hmk
        · rcases List.mem_cons.mp hmv with heq | hmv2
          · exact absurd heq (by decide)
          · exact canon_not_mem encQ '&' hQamp (by decide) (by decide) kv2.2 hcv hmv2
      · subst hpe
        intro habs
        rcases List.append_eq_nil.mp habs with ⟨_, habs2⟩
        exact List.cons_ne_nil _ _ habs2
  have hkeys : (dpairs.map Prod.fst).Nodup := by
    show List.Pairwise (fun a b => a ≠ b) (dpairs.map Prod.fst)
    rw [List.pairwise_map]
    have h1 : (pairs.map (fun kv => decodeList kv.1)).Pairwise (fun a b => a ≠ b) :=
      List.pairwise_map.mpr hdist
    rw [← hdata] at h1
    have h2 : dpairs.Pairwise (fun a b => some a.1.data ≠ some b.1.data) :=
      List.pairwise_map.mp h1
    exact h2.imp (fun hab heq => hab (by rw [heq]))
  have hparse : parseQuery (joinSep '&' (pairs.map (fun kv => kv.1 ++ '=' :: kv.2))) =
      some dpairs := by
    unfold parseQuery decodedPairs
    rw [hsplitFull]
    simp only [hdpairs]
    rw [foldInsert_of_nodup dpairs [] (by simpa using hkeys)]
    rfl
  refine ⟨dP, dpairs, ?_, ?_, hdP, hparse, ?_⟩
  · rw [splitN_append '/' 2 A _ hA, splitN_append '/' 1 B _ hB,
      splitN_append '/' 0 C _ hC, splitN_zero]
    rfl
  · rw [splitN_append '?' 0 P _ hQP, splitN_zero]
  · rw [heP, hencpairs]

/-! Concrete events and witnesses. -/

/-- Default request used only to extract translation results. -/
def emptyRequest : OutboundRequest := ⟨"", [], []⟩

/-- Concrete failure-marked event. -/
def dFail : EventDetail :=
  ⟨[("ResponseURL", Json.str "https://host/p?x=1"),
    ("StackId", Json.str "S"), ("RequestId", Json.str "R"),
    ("LogicalResourceId", Json.str "L")],
   [("functionError", Json.str "Unhandled")],
   [("errorType", Json.str "ValueError"), ("errorMessage", Json.str "it\x27s broken")]⟩

/-- Translation result of the concrete failure event. -/
def rFail : OutboundRequest := (translate dFail).getD emptyRequest

/-- Concrete success event with PhysicalResourceId present and
responsePayload keys in the order B, A, C. -/
def dSuccess : EventDetail :=
  ⟨[("ResponseURL", Json.str "https://host/p?x=1"),
    ("StackId", Json.str "S"), ("RequestId", Json.str "R"),
    ("LogicalResourceId", Json.str "L"), ("PhysicalResourceId", Json.str "P")],
   [],
   [("B", Json.str "1"), ("A", Json.str "2"), ("C", Json.str "3")]⟩

/-- Translation result of the concrete success event. -/
def rSuccess : OutboundRequest := (translate dSuccess).getD emptyRequest

theorem C1_witness :
    (bodyLookup rFail "Status" = some (JField.raw "FAILED") ↔
      hasFunctionError dFail = true) ∧
    (hasFunctionError dFail = false →
      bodyLookup rFail "Status" = some (JField.raw "SUCCESS")) ∧
    (hasFunctionError dFail = true →
      rFail.body.map Prod.fst =
        ["Status", "Reason", "PhysicalResourceId", "StackId", "RequestId",
         "LogicalResourceId"]) :=
  C1_status_discrimination dFail rFail rfl

theorem C2_witness :
    (∀ j, assocLookup dSuccess.requestPayload "PhysicalResourceId" = some j →
      bodyLookup rSuccess "PhysicalResourceId" = some (JField.json j)) ∧
    (∀ j, assocLookup dSuccess.requestPayload "PhysicalResourceId" = none →
      assocLookup dSuccess.requestPayload "RequestId" = some j →
      bodyLookup rSuccess "PhysicalResourceId" = some (JField.json j)) :=
  C2_physical_resource_id dSuccess rSuccess rfl

theorem C3_witness :
    (∀ et em, hasFunctionError dFail = true →
      lookupStr dFail.responsePayload "errorType" = some et →
      lookupStr dFail.responsePayload "errorMessage" = some em →
      bodyLookup rFail "Reason" =
        some (JField.raw ("Unhandled error: " ++ escFixed et ++ ": " ++ escFixed em))) ∧
    (hasFunctionError dFail = false → bodyLookup rFail "Reason" = some (JField.raw "")) ∧
    escFixed "it\x27s \"broken\"\nback\\slash" = "it\x27s \\\"broken\\\"\\nback\\\\slash" :=
  C3_reason_field dFail rFail rfl

theorem C7_witness :
    rSuccess.body.map Prod.fst =
      ["Status", "Reason", "PhysicalResourceId"] ++
        (if hasFunctionError dSuccess then []
         else dSuccess.responsePayload.map (fun kv => escFixed kv.1)) ++
        ["StackId", "RequestId", "LogicalResourceId"] ∧
    rSuccess.body.drop (rSuccess.body.length - 3) =
      [("StackId", JField.json (Json.str "S")),
       ("RequestId", JField.json (Json.str "R")),
       ("LogicalResourceId", JField.json (Json.str "L"))] :=
  C7_field_order dSuccess rSuccess (Json.str "S") (Json.str "R") (Json.str "L")
    rfl rfl rfl rfl

theorem C10_witness :
    (rSuccess.body.drop 3).take dSuccess.responsePayload.length =
      dSuccess.responsePayload.map
        (fun kv => (escFixed kv.1, jsonPathField dSuccess.responsePayload kv.1)) ∧
    (∀ k j, '.' ∉ k.data → assocLookup dSuccess.responsePayload k = some j →
      jsonPathField dSuccess.responsePayload k = JField.json j) ∧
    escFixed "a\"b" = "a\\\"b" ∧ ("a\\\"b" : String) ≠ "a\"b" :=
  C10_flattened_payload dSuccess rSuccess rfl rfl

/-- Concrete event whose destination URL has a percent-escaped space in
its path. -/
def dRound : EventDetail :=
  ⟨[("ResponseURL", Json.str "https://host/p%20q?x=1"),
    ("StackId", Json.str "S"), ("RequestId", Json.str "R"),
    ("LogicalResourceId", Json.str "L")],
   [], []⟩

/-- Translation result of the percent-escaped event. -/
def rRound : OutboundRequest := (translate dRound).getD emptyRequest

theorem C4_witness :
    (splitN '/' 3 ("https:".data ++ '/' :: ([] ++ '/' :: ("host".data ++ '/' ::
      ("p%20q".data ++ '?' :: "x=1".data))))).get? 3 =
      some ("p%20q".data ++ '?' :: "x=1".data) ∧
    splitN '?' 1 ("p%20q".data ++ '?' :: "x=1".data) = ["p%20q".data, "x=1".data] ∧
    rRound.path = String.mk "p q".data :=
  C4_url_decomposition "https:".data [] "host".data "p%20q".data "x=1".data
    dRound rRound "p q".data (by decide) (by decide) (by decide) (by decide)
    rfl rfl rfl

theorem C5_witness :
    decodedPairs ("b=2&a=1".data) = some [("b", "2"), ("a", "1")] ∧
    parseQuery ("b=2&a=1".data) = some [("b", "2"), ("a", "1")] :=
  C5_query_parse_order ("b=2&a=1".data) [("b", "2"), ("a", "1")] rfl (by decide)

theorem C8_witness :
    ((splitN '/' 3 ("nofourslashes" : String).data).get? 3 = none →
      translate ⟨[("ResponseURL", Json.str "nofourslashes")], [], []⟩ = none) ∧
    (∀ fullPath,
      (splitN '/' 3 ("nofourslashes" : String).data).get? 3 = some fullPath →
      (splitN '?' 1 fullPath).get? 1 = none →
      translate ⟨[("ResponseURL", Json.str "nofourslashes")], [], []⟩ = none) ∧
    (∀ fullPath rawQuery pair,
      (splitN '/' 3 ("nofourslashes" : String).data).get? 3 = some fullPath →
      (splitN '?' 1 fullPath).get? 1 = some rawQuery →
      pair ∈ splitFullL '&' rawQuery → '=' ∉ pair →
      translate ⟨[("ResponseURL", Json.str "nofourslashes")], [], []⟩ = none) ∧
    ((translate dNoStack).isSome = true ∧
      (translate dNoStack).bind (fun r => bodyLookup r "StackId") = some JField.absent) :=
  C8_malformed_rejection ⟨[("ResponseURL", Json.str "nofourslashes")], [], []⟩
    "nofourslashes" rfl

theorem C9_witness :
    (([("a", "2")] : List (String × String)).filter (fun kv => kv.1 == "a")).length = 1 ∧
    (([("a", "2")] : List (String × String)).find? (fun kv => kv.1 == "a")).map Prod.snd =
      (([("a", "1"), ("a", "2")] : List (String × String)).reverse.find?
        (fun kv => kv.1 == "a")).map Prod.snd :=
  C9_duplicate_keys ("a=1&a=2".data) [("a", "1"), ("a", "2")] [("a", "2")] "a"
    rfl rfl (by decide)

/-- Concrete must-escape set for the path side of the C6 witness. -/
def encPex : Char → Bool := fun c => ['%', '+', '?', ' '].contains c

/-- Concrete must-escape set for the query side of the C6 witness. -/
def encQex : Char → Bool := fun c => ['%', '+', '?', '&', '=', ' '].contains c

theorem C6_witness :
    ∃ (dP : List Char) (dpairs : List (String × String)),
      (splitN '/' 3 ("https:".data ++ '/' :: ([] ++ '/' :: ("host".data ++ '/' ::
        ("a/b%20c".data ++ '?' :: joinSep '&'
          (([("k1".data, "v%26w".data), ("k2".data, "x".data)]).map
            (fun kv => kv.1 ++ '=' :: kv.2))))))).get? 3 =
        some ("a/b%20c".data ++ '?' :: joinSep '&'
          (([("k1".data, "v%26w".data), ("k2".data, "x".data)]).map
            (fun kv => kv.1 ++ '=' :: kv.2))) ∧
      splitN '?' 1 ("a/b%20c".data ++ '?' :: joinSep '&'
        (([("k1".data, "v%26w".data), ("k2".data, "x".data)]).map
          (fun kv => kv.1 ++ '=' :: kv.2))) =
        ["a/b%20c".data, joinSep '&'
          (([("k1".data, "v%26w".data), ("k2".data, "x".data)]).map
            (fun kv => kv.1 ++ '=' :: kv.2))] ∧
      decodeList "a/b%20c".data = some dP ∧
      parseQuery (joinSep '&'
        (([("k1".data, "v%26w".data), ("k2".data, "x".data)]).map
          (fun kv => kv.1 ++ '=' :: kv.2))) = some dpairs ∧
      urlEncodeWith encPex dP ++ '?' :: joinSep '&' (dpairs.map (fun kv =>
        urlEncodeWith encQex kv.1.data ++ '=' :: urlEncodeWith encQex kv.2.data)) =
        "a/b%20c".data ++ '?' :: joinSep '&'
          (([("k1".data, "v%26w".data), ("k2".data, "x".data)]).map
            (fun kv => kv.1 ++ '=' :: kv.2)) :=
  C6_roundtrip encPex encQex rfl rfl rfl "a/b%20c".data
    [("k1".data, "v%26w".data), ("k2".data, "x".data)]
    (by decide) (by decide) (by decide) (by decide)
    "https:".data [] "host".data (by decide) (by decide) (by decide)

end CfnResponder
